import Mathlib

/-!
Verification development for the replan-app inventory server (`src/server.js`).

The JavaScript source is shallowly embedded: text is handled as `List Char`
(`Str`), JS numbers occurring as quantities/limits are modelled as `Int`
(the HTTP layer and its `Number(...)` coercions are out of scope, and all
quantity-producing paths in scope yield integers), JS `Map`s and plain
objects used as keyed stores are modelled as insertion-ordered association
lists, and timestamps (ISO strings / epoch milliseconds) are modelled as
`Int` milliseconds — `toISOString` output is a fixed-width string whose
lexicographic order agrees with the numeric time, and `localeCompare` on
the digit-only SKU strings produced by the parser agrees with lexicographic
character order, which `lexLE` implements.
-/

namespace Replan

abbrev Str := List Char

/-- JS `String.prototype.trim`, modelled on ASCII whitespace. -/
def trimStr (s : Str) : Str :=
  ((s.dropWhile Char.isWhitespace).reverse.dropWhile Char.isWhitespace).reverse

def toUpperStr (s : Str) : Str := s.map Char.toUpper

def toLowerStr (s : Str) : Str := s.map Char.toLower

/-- Lexicographic comparison on character values (JS `localeCompare`
restricted to the digit strings this system uses as SKUs). -/
def lexLE : Str → Str → Bool
  | [], _ => true
  | _ :: _, [] => false
  | a :: as, b :: bs => if a < b then true else if b < a then false else lexLE as bs

/-! ### looksLikeSize (server.js lines 79-87) -/

/-- Regex `\d+` against a whole string. -/
def isDigits (s : Str) : Bool := !s.isEmpty && s.all Char.isDigit

/-- Regex `^\d+(\.\d+)?$`. -/
def isNumTok (s : Str) : Bool :=
  match s.span Char.isDigit with
  | (ds, []) => !ds.isEmpty
  | (ds, '.' :: rest) => !ds.isEmpty && isDigits rest
  | _ => false

def letterSizeToks : List Str :=
  ["XXS".toList, "XS".toList, "S".toList, "M".toList, "L".toList,
   "XL".toList, "XXL".toList, "XXXL".toList]

/-- Regex `^(XXS|XS|S|M|L|XL|XXL|XXXL)$`. -/
def isLetterTok (s : Str) : Bool := letterSizeToks.contains s

def ageSuffixToks : List Str :=
  ["Y".toList, "YR".toList, "YEARS".toList, "M".toList, "MO".toList, "MONTHS".toList]

/-- Regex `^\d+\s*(Y|YR|YEARS|M|MO|MONTHS)$`. -/
def isAgeTok (s : Str) : Bool :=
  match s.span Char.isDigit with
  | ([], _) => false
  | (_, rest) => ageSuffixToks.contains (rest.dropWhile Char.isWhitespace)

/-- Regex `^\d+\s*[-\/]\s*\d+$`. -/
def isRangeTok (s : Str) : Bool :=
  match s.span Char.isDigit with
  | ([], _) => false
  | (_, rest) =>
    match rest.dropWhile Char.isWhitespace with
    | c :: rest2 => (c = '-' || c = '/') && isDigits (rest2.dropWhile Char.isWhitespace)
    | [] => false

/-- `looksLikeSize(v)`: trim, uppercase, then test the four size grammars. -/
def looksLikeSize (v : String) : Bool :=
  let s := toUpperStr (trimStr v.toList)
  !s.isEmpty && (isNumTok s || isLetterTok s || isAgeTok s || isRangeTok s)

/-! ### parseTextLine (server.js lines 89-116) -/

/-- First match of regex `\[(\d+)\]`: leftmost `[` followed by a nonempty
digit run whose maximal extent is closed by `]`. -/
def findSku : Str → Option Str
  | [] => none
  | '[' :: rest =>
    match rest.span Char.isDigit with
    | ([], _) => findSku rest
    | (ds, ']' :: _) => some ds
    | (_ :: _, _) => findSku rest
  | _ :: rest => findSku rest

def hasSku (t : Str) : Bool := (findSku t).isSome

/-- One left-to-right pass collecting every match of the global regex
`\(([^()]*)\)`: an unclosed `(` is superseded by a later `(`, exactly as
regex restart-at-next-position behaves on non-nested groups. -/
def parenScan : Str → Option Str → List Str
  | [], _ => []
  | '(' :: rest, _ => parenScan rest (some [])
  | ')' :: rest, some acc => acc.reverse :: parenScan rest none
  | ')' :: rest, none => parenScan rest none
  | c :: rest, some acc => parenScan rest (some (c :: acc))
  | _ :: rest, none => parenScan rest none

def findParens (s : Str) : List Str := parenScan s none

def lastParen (s : Str) : Option Str := (findParens s).getLast?

def isCommaCh (c : Char) : Bool := c = ',' || c = '،'

/-- JS `split(/[,،]/)` (keeps empty segments; always at least one). -/
def splitCommasGo : Str → Str → List Str
  | [], acc => [acc.reverse]
  | c :: rest, acc =>
    if isCommaCh c then acc.reverse :: splitCommasGo rest []
    else splitCommasGo rest (c :: acc)

def splitCommas (s : Str) : List Str := splitCommasGo s []

/-- `last.split(/[,،]/).map(x => x.trim()).filter(Boolean)`. -/
def partsOf (content : Str) : List String :=
  ((splitCommas content).map (fun cs => String.mk (trimStr cs))).filter (fun s => s ≠ "")

structure ParsedLine where
  sku : String
  color : String
  size : String
deriving Repr, DecidableEq

def parseTextLine (text : String) : ParsedLine :=
  match findSku text.toList with
  | none => ⟨"", "", ""⟩
  | some ds =>
    let sku := String.mk ds
    match lastParen text.toList with
    | none => ⟨sku, "", ""⟩
    | some last =>
      match partsOf last with
      | p1 :: p2 :: _ =>
        if looksLikeSize p1 && !looksLikeSize p2 then ⟨sku, p2, p1⟩
        else ⟨sku, p1, p2⟩
      | [p] => if looksLikeSize p then ⟨sku, "", p⟩ else ⟨sku, p, ""⟩
      | [] => ⟨sku, "", ""⟩

/-! ### Limits (server.js lines 177-187) -/

structure SkuOverride where
  minOv : Option Int
  maxOv : Option Int
deriving Repr, DecidableEq

structure LimitsConfig where
  defaultMin : Int
  defaultMax : Int
  skus : List (String × SkuOverride)
deriving Repr, DecidableEq

structure Limits where
  min : Int
  max : Int
deriving Repr, DecidableEq

/-- `getSkuLimits(sku)`: per-SKU override when its field is a finite number,
else `Number(lim.defaultMin || 1)` — a zero (falsy) default falls back to 1;
both results clamped by `Math.max(0, Math.floor(_))` (integers here). -/
def getSkuLimits (cfg : LimitsConfig) (sku : String) : Limits :=
  let ov := cfg.skus.lookup sku
  let minRaw := match ov.bind SkuOverride.minOv with
    | some v => v
    | none => if cfg.defaultMin = 0 then 1 else cfg.defaultMin
  let maxRaw := match ov.bind SkuOverride.maxOv with
    | some v => v
    | none => if cfg.defaultMax = 0 then 1 else cfg.defaultMax
  ⟨Max.max 0 minRaw, Max.max 0 maxRaw⟩

/-- `clampPull(balance, min, max)`. -/
def clampPull (balance mn mx : Int) : Int :=
  if balance < mn then 0 else Min.min balance mx

/-! ### parseRows (server.js lines 140-168)

The JS code aggregates into a `Map` keyed by the string
`category||sku||size||color` and splits the key back apart on output; we
key by the same string but carry the four fields alongside, which agrees
with the source whenever no field contains the separator. -/

structure AggRow where
  category : String
  sku : String
  size : String
  color : String
  qty : Int
deriving Repr, DecidableEq

def aggKey (category sku size color : String) : String :=
  category ++ "||" ++ sku ++ "||" ++ size ++ "||" ++ color

/-- Insertion-ordered `Map.set(k, get(k)+qty)` on the aggregation map. -/
def upsertAgg (m : List (String × AggRow)) (k : String) (row : AggRow) :
    List (String × AggRow) :=
  if (m.lookup k).isSome then
    m.map (fun p => if p.1 = k then (p.1, { p.2 with qty := p.2.qty + row.qty }) else p)
  else m ++ [(k, row)]

def parseRowsGo : List (String × Int) → String → List (String × AggRow) → List (String × AggRow)
  | [], _, agg => agg
  | (rawText, rawQty) :: rest, currentCategory, agg =>
    if (trimStr rawText.toList).isEmpty then parseRowsGo rest currentCategory agg
    else if !hasSku (trimStr rawText.toList) then
      if toLowerStr (trimStr rawText.toList) ≠ "quantity".toList then
        parseRowsGo rest (String.mk (trimStr rawText.toList)) agg
      else parseRowsGo rest currentCategory agg
    else if (parseTextLine (String.mk (trimStr rawText.toList))).sku = "" then
      parseRowsGo rest currentCategory agg
    else
      parseRowsGo rest currentCategory
        (upsertAgg agg
          (aggKey currentCategory
            (parseTextLine (String.mk (trimStr rawText.toList))).sku
            (parseTextLine (String.mk (trimStr rawText.toList))).size
            (parseTextLine (String.mk (trimStr rawText.toList))).color)
          ⟨currentCategory,
           (parseTextLine (String.mk (trimStr rawText.toList))).sku,
           (parseTextLine (String.mk (trimStr rawText.toList))).size,
           (parseTextLine (String.mk (trimStr rawText.toList))).color, rawQty⟩)

/-- `parseRows(rows)` with the quantity cell already coerced to a number. -/
def parseRows (rows : List (String × Int)) : List AggRow :=
  (parseRowsGo rows "" []).map Prod.snd

def makeKey (sku size color : String) : String :=
  sku ++ "||" ++ size ++ "||" ++ color

/-! ### Stock ledger -/

structure StockItem where
  sku : String
  size : String
  color : String
  category : String
  qty : Int
deriving Repr, DecidableEq

/-- `stockMaster.items`, an insertion-ordered keyed object. -/
abbrev Ledger := List (String × StockItem)

/-- JS object assignment `items[key] = it` (overwrite keeps position). -/
def setItem (items : Ledger) (k : String) (it : StockItem) : Ledger :=
  if (items.lookup k).isSome then
    items.map (fun p => if p.1 = k then (p.1, it) else p)
  else items ++ [(k, it)]

/-- JS `st.qty = q` on the looked-up item. -/
def setQty (items : Ledger) (k : String) (q : Int) : Ledger :=
  items.map (fun p => if p.1 = k then (p.1, { p.2 with qty := q }) else p)

/-- The snapshot built from parsed rows (server.js lines 209-219). -/
def buildItems (parsed : List AggRow) : Ledger :=
  parsed.foldl
    (fun acc it =>
      setItem acc (makeKey it.sku it.size it.color)
        ⟨it.sku, it.size, it.color, it.category, it.qty⟩)
    []

/-! ### New-collection batch and stock update (server.js lines 194-276) -/

inductive LineStatus
  | Pending
  | Done
deriving Repr, DecidableEq

structure NCLine where
  lineId : String
  category : String
  sku : String
  size : String
  color : String
  qty : Int
  status : LineStatus
  executedAt : Option Int
deriving Repr, DecidableEq

inductive NCMode
  | BasePendingAll
  | UpdatePendingNewOnly
deriving Repr, DecidableEq

structure NCBatch where
  createdAt : Option Int
  mode : Option NCMode
  items : List NCLine
deriving Repr, DecidableEq

def ncLineOf (k : String) (x : StockItem) : NCLine :=
  ⟨k, x.category, x.sku, x.size, x.color, 1, .Pending, none⟩

/-- `POST /api/stock/update` after file decoding: replace the snapshot and
derive the new-collection batch (BASE mode when the old ledger was empty,
UPDATE mode surfacing only keys absent from the old ledger). -/
def stockUpdate (oldItems : Ledger) (rows : List (String × Int)) (now : Int) :
    Ledger × NCBatch :=
  if oldItems.isEmpty then
    (buildItems (parseRows rows),
     ⟨some now, some .BasePendingAll,
      (buildItems (parseRows rows)).filterMap
        (fun p => if 1 ≤ p.2.qty then some (ncLineOf p.1 p.2) else none)⟩)
  else
    (buildItems (parseRows rows),
     ⟨some now, some .UpdatePendingNewOnly,
      (buildItems (parseRows rows)).filterMap
        (fun p =>
          if (oldItems.lookup p.1).isNone = true ∧ 1 ≤ p.2.qty then
            some (ncLineOf p.1 p.2)
          else none)⟩)

/-! ### Replan generation (server.js lines 436-507) -/

structure ReplanLine where
  lineId : String
  category : String
  sku : String
  size : String
  color : String
  stockQty : Int
  salesQty : Int
  balance : Int
  pullQty : Int
  status : LineStatus
  executedAt : Option Int
deriving Repr, DecidableEq

structure ReplanRun where
  runId : String
  createdAt : Int
  categoryFilter : String
  salesFileName : String
  lines : List ReplanLine
deriving Repr, DecidableEq

/-- `Map.set(key, (get(key) || 0) + qty)`. -/
def upsertQty (m : List (String × Int)) (k : String) (q : Int) : List (String × Int) :=
  if (m.lookup k).isSome then
    m.map (fun p => if p.1 = k then (p.1, p.2 + q) else p)
  else m ++ [(k, q)]

/-- The `salesMap` of `/api/replan/generate`: parsed sales rows re-keyed by
`sku||size||color` (category dropped), quantities summed. -/
def buildSalesMap (parsed : List AggRow) : List (String × Int) :=
  parsed.foldl (fun m it => upsertQty m (makeKey it.sku it.size it.color) it.qty) []

/-- The per-key body of the generate loop (server.js lines 459-488). -/
def replanCandidate (stockItems : Ledger) (categoryFilter : String)
    (cfg : LimitsConfig) (k : String) (salesQty : Int) : Option ReplanLine :=
  if salesQty ≤ 0 then none
  else
    match stockItems.lookup k with
    | none => none
    | some st =>
      if categoryFilter ≠ "" ∧ st.category ≠ categoryFilter then none
      else if st.qty - salesQty ≤ 0 then none
      else if clampPull (st.qty - salesQty) (getSkuLimits cfg st.sku).min
          (getSkuLimits cfg st.sku).max ≤ 0 then none
      else some ⟨k, st.category, st.sku, st.size, st.color, st.qty, salesQty,
                  st.qty - salesQty,
                  clampPull (st.qty - salesQty) (getSkuLimits cfg st.sku).min
                    (getSkuLimits cfg st.sku).max,
                  .Pending, none⟩

/-- Sort comparator `(b.balance - a.balance) || a.sku.localeCompare(b.sku)`
as a ≤-style boolean relation. -/
def lineLE (a b : ReplanLine) : Bool :=
  decide (b.balance < a.balance) ||
    (a.balance == b.balance && lexLE a.sku.toList b.sku.toList)

def generateLines (salesParsed : List AggRow) (stockItems : Ledger)
    (categoryFilter : String) (cfg : LimitsConfig) : List ReplanLine :=
  ((buildSalesMap salesParsed).filterMap
      (fun p => replanCandidate stockItems categoryFilter cfg p.1 p.2)).mergeSort lineLE

/-- `POST /api/replan/generate`: fails on an empty ledger, otherwise builds
the run from the generated lines. -/
def generateRun (salesParsed : List AggRow) (stockItems : Ledger)
    (categoryFilter : String) (cfg : LimitsConfig) (runId : String) (now : Int)
    (salesFileName : String) : Option ReplanRun :=
  if stockItems.isEmpty then none
  else some ⟨runId, now, if categoryFilter = "" then "All" else categoryFilter,
             salesFileName, generateLines salesParsed stockItems categoryFilter cfg⟩

/-! ### Execution (server.js lines 368-431 and 509-581) -/

/-- Mutate the first list element satisfying `p` (JS `find` then in-place
mutation of the found object). -/
def updateFirst {α : Type} (p : α → Bool) (f : α → α) : List α → List α
  | [] => []
  | x :: xs => if p x then f x :: xs else x :: updateFirst p f xs

structure ExecResult where
  ok : Bool
  stock : Ledger
  runs : List ReplanRun
deriving Repr, DecidableEq

/-- `POST /api/replan/execute`: single-line execution against the current
ledger. Every failure path (validation, not-found, missing stock item,
insufficient stock) returns with both documents unwritten. -/
def replanExecute (runs : List ReplanRun) (stock : Ledger) (runId lineId : String)
    (now : Int) : ExecResult :=
  if runId = "" || lineId = "" then ⟨false, stock, runs⟩
  else
    match runs.find? (fun r => r.runId == runId) with
    | none => ⟨false, stock, runs⟩
    | some run =>
      match run.lines.find? (fun l => l.lineId == lineId) with
      | none => ⟨false, stock, runs⟩
      | some line =>
        if line.status = .Done then ⟨true, stock, runs⟩
        else
          match stock.lookup lineId with
          | none => ⟨false, stock, runs⟩
          | some st =>
            if st.qty < line.pullQty then ⟨false, stock, runs⟩
            else
              ⟨true, setQty stock lineId (st.qty - line.pullQty),
               updateFirst (fun r => r.runId == runId)
                 (fun r =>
                   { r with
                     lines := updateFirst (fun l => l.lineId == lineId)
                       (fun l => { l with status := .Done, executedAt := some now })
                       r.lines })
                 runs⟩

structure NCExecResult where
  ok : Bool
  stock : Ledger
  batch : NCBatch
deriving Repr, DecidableEq

/-- `POST /api/newcollection/execute`: identical shape with `need = line.qty`. -/
def ncExecute (batch : NCBatch) (stock : Ledger) (lineId : String) (now : Int) :
    NCExecResult :=
  if lineId = "" then ⟨false, stock, batch⟩
  else
    match batch.items.find? (fun l => l.lineId == lineId) with
    | none => ⟨false, stock, batch⟩
    | some line =>
      if line.status = .Done then ⟨true, stock, batch⟩
      else
        match stock.lookup lineId with
        | none => ⟨false, stock, batch⟩
        | some st =>
          if st.qty < line.qty then ⟨false, stock, batch⟩
          else
            ⟨true, setQty stock lineId (st.qty - line.qty),
             { batch with
               items := updateFirst (fun l => l.lineId == lineId)
                 (fun l => { l with status := .Done, executedAt := some now })
                 batch.items }⟩

/-- One iteration of the `executeAll` loop for a replan line. -/
def execAllStep (stock : Ledger) (line : ReplanLine) (now : Int) :
    Ledger × ReplanLine :=
  if line.status = .Done then (stock, line)
  else
    match stock.lookup line.lineId with
    | none => (stock, line)
    | some st =>
      if line.pullQty ≤ 0 then (stock, line)
      else if st.qty < line.pullQty then (stock, line)
      else (setQty stock line.lineId (st.qty - line.pullQty),
            { line with status := .Done, executedAt := some now })

/-- `POST /api/replan/executeAll` restricted to the found run's lines:
lines are processed in order against the ledger as mutated by earlier
lines; failures never abort the pass. -/
def replanExecuteAll : Ledger → List ReplanLine → Int → Ledger × List ReplanLine
  | stock, [], _ => (stock, [])
  | stock, l :: ls, now =>
    ((replanExecuteAll (execAllStep stock l now).1 ls now).1,
     (execAllStep stock l now).2 ::
       (replanExecuteAll (execAllStep stock l now).1 ls now).2)

/-- One iteration of the `executeAll` loop for a new-collection line. -/
def ncExecAllStep (stock : Ledger) (line : NCLine) (now : Int) : Ledger × NCLine :=
  if line.status = .Done then (stock, line)
  else
    match stock.lookup line.lineId with
    | none => (stock, line)
    | some st =>
      if line.qty ≤ 0 then (stock, line)
      else if st.qty < line.qty then (stock, line)
      else (setQty stock line.lineId (st.qty - line.qty),
            { line with status := .Done, executedAt := some now })

/-- `POST /api/newcollection/executeAll` over the batch items. -/
def ncExecuteAll : Ledger → List NCLine → Int → Ledger × List NCLine
  | stock, [], _ => (stock, [])
  | stock, l :: ls, now =>
    ((ncExecuteAll (ncExecAllStep stock l now).1 ls now).1,
     (ncExecAllStep stock l now).2 ::
       (ncExecuteAll (ncExecAllStep stock l now).1 ls now).2)

/-! ### Dashboard noReplan (server.js lines 586-665) -/

def skuKey4 (category sku size color : String) : String :=
  category ++ "||" ++ sku ++ "||" ++ size ++ "||" ++ color

/-- `lastBySku.set(k, Math.max(lastBySku.get(k) || 0, t))`. -/
def upsertMax (m : List (String × Int)) (k : String) (t : Int) : List (String × Int) :=
  let v := Max.max ((m.lookup k).getD 0) t
  if (m.lookup k).isSome then
    m.map (fun p => if p.1 = k then (p.1, v) else p)
  else m ++ [(k, v)]

/-- Latest Done-execution time per `category||sku||size||color` key, over
all runs in history (category-filtered when a filter is set). -/
def lastBySku (runs : List ReplanRun) (category : String) : List (String × Int) :=
  runs.foldl
    (fun m run =>
      run.lines.foldl
        (fun m l =>
          match l.status, l.executedAt with
          | .Done, some t =>
            if category = "" || l.category == category then
              upsertMax m (skuKey4 l.category l.sku l.size l.color) t
            else m
          | _, _ => m)
        m)
    []

structure NoReplanEntry where
  category : String
  sku : String
  size : String
  color : String
  stockQty : Int
  lastExecutedAt : Option Int
deriving Repr, DecidableEq

/-- `lastBySku.get(skuKey) || 0` for a stock item's own key. -/
def lastKeyOf (runs : List ReplanRun) (category : String) (st : StockItem) : Int :=
  ((lastBySku runs category).lookup
      (skuKey4 st.category st.sku st.size st.color)).getD 0

/-- The unsorted `noReplan` accumulation loop. -/
def noReplanBase (runs : List ReplanRun) (stockItems : Ledger) (nowMs staleDays : Int)
    (category : String) : List NoReplanEntry :=
  stockItems.filterMap
    (fun p =>
      if p.2.qty ≤ 0 then none
      else if category ≠ "" ∧ p.2.category ≠ category then none
      else if lastKeyOf runs category p.2 = 0 ∨
          lastKeyOf runs category p.2 < nowMs - staleDays * 86400000 then
        some ⟨p.2.category, p.2.sku, p.2.size, p.2.color, p.2.qty,
              if lastKeyOf runs category p.2 = 0 then none
              else some (lastKeyOf runs category p.2)⟩
      else none)

/-- Sort key: `(a.lastExecutedAt || "").localeCompare(b.lastExecutedAt || "")`;
a missing timestamp is the empty string, which sorts before every ISO
timestamp, and ISO timestamps compare like their numeric times. -/
def noRepLE (a b : NoReplanEntry) : Bool :=
  a.lastExecutedAt.getD 0 ≤ b.lastExecutedAt.getD 0

/-- The dashboard `noReplan` list: filter, sort ascending, cap at 200. -/
def noReplanList (runs : List ReplanRun) (stockItems : Ledger) (nowMs staleDays : Int)
    (category : String) : List NoReplanEntry :=
  ((noReplanBase runs stockItems nowMs staleDays category).mergeSort noRepLE).take 200

/-! ### Association-list helper lemmas -/

theorem lookup_cons_self {β : Type} {k : String} {v : β} {m : List (String × β)} :
    ((k, v) :: m).lookup k = some v := by
  rw [List.lookup_cons]
  simp

theorem lookup_cons_ne {β : Type} {k : String} {p : String × β} {m : List (String × β)}
    (h : k ≠ p.1) : (p :: m).lookup k = m.lookup k := by
  rw [show p = (p.1, p.2) from rfl, List.lookup_cons]
  have hb : (k == p.1) = false := beq_eq_false_iff_ne.mpr h
  rw [hb]

theorem mem_of_lookup_eq_some {β : Type} {m : List (String × β)} {k : String} {v : β}
    (h : m.lookup k = some v) : (k, v) ∈ m := by
  induction m with
  | nil => simp at h
  | cons p m ih =>
    obtain ⟨a, b⟩ := p
    by_cases hk : k = a
    · subst hk
      rw [lookup_cons_self] at h
      simp only [Option.some.injEq] at h
      simp [← h]
    · rw [lookup_cons_ne hk] at h
      exact List.mem_cons_of_mem _ (ih h)

theorem lookup_eq_some_of_mem_nodup {β : Type} {m : List (String × β)} {k : String} {v : β}
    (hnd : (m.map Prod.fst).Nodup) (hm : (k, v) ∈ m) : m.lookup k = some v := by
  induction m with
  | nil => simp at hm
  | cons p m ih =>
    simp only [List.map_cons, List.nodup_cons] at hnd
    rcases List.mem_cons.mp hm with h | h
    · rw [← h]
      exact lookup_cons_self
    · have hne : k ≠ p.1 := by
        intro hk
        exact hnd.1 (hk ▸ (List.mem_map.mpr ⟨(k, v), h, rfl⟩))
      rw [lookup_cons_ne hne]
      exact ih hnd.2 h

theorem lookup_isSome_iff_mem_keys {β : Type} (m : List (String × β)) (k : String) :
    (m.lookup k).isSome = true ↔ k ∈ m.map Prod.fst := by
  induction m with
  | nil => simp
  | cons p m ih =>
    obtain ⟨a, b⟩ := p
    by_cases hk : k = a
    · subst hk
      rw [lookup_cons_self]
      simp
    · rw [lookup_cons_ne hk]
      simp [hk, ih]

/-! ### C9: two-part parenthetical disambiguation -/

/-- C9: for an input line with a bracketed numeric SKU whose last
parenthetical group splits into two non-empty parts (p1, p2), the parser
assigns size = p1 and color = p2 exactly when p1 matches the size grammar
and p2 does not, and otherwise color = p1 and size = p2; in particular
both example lines parse to sku 123, size M, color Red, and a single part
not matching the size grammar yields an empty size and that part as the
color. -/
theorem parse_two_part_disambiguation :
    (∀ (text : String) (ds last : Str) (p1 p2 : String),
       findSku text.toList = some ds →
       lastParen text.toList = some last →
       partsOf last = [p1, p2] →
       ((looksLikeSize p1 = true ∧ looksLikeSize p2 = false) →
          (parseTextLine text).size = p1 ∧ (parseTextLine text).color = p2) ∧
       (¬(looksLikeSize p1 = true ∧ looksLikeSize p2 = false) →
          (parseTextLine text).color = p1 ∧ (parseTextLine text).size = p2)) ∧
    parseTextLine ("[123] Dress (M, Red)") = ⟨"123", "Red", "M"⟩ ∧
    parseTextLine ("[123] Dress (Red, M)") = ⟨"123", "Red", "M"⟩ ∧
    (∀ (text : String) (ds last : Str) (p : String),
       findSku text.toList = some ds →
       lastParen text.toList = some last →
       partsOf last = [p] →
       looksLikeSize p = false →
       (parseTextLine text).size = "" ∧ (parseTextLine text).color = p) := by
  refine ⟨?_, by decide, by decide, ?_⟩
  · intro text ds last p1 p2 hsku hlast hparts
    simp only [String.toList] at hsku hlast
    constructor
    · rintro ⟨h1, h2⟩
      simp only [parseTextLine, String.toList, hsku, hlast, hparts]
      have hb : (looksLikeSize p1 && !looksLikeSize p2) = true := by
        simp only [Bool.and_eq_true, Bool.not_eq_true']
        exact ⟨h1, h2⟩
      rw [if_pos hb]
      exact ⟨rfl, rfl⟩
    · intro h
      simp only [parseTextLine, String.toList, hsku, hlast, hparts]
      have hb : ¬((looksLikeSize p1 && !looksLikeSize p2) = true) := by
        simp only [Bool.and_eq_true, Bool.not_eq_true']
        exact h
      rw [if_neg hb]
      exact ⟨rfl, rfl⟩
  · intro text ds last p hsku hlast hparts hp
    simp only [String.toList] at hsku hlast
    simp only [parseTextLine, String.toList, hsku, hlast, hparts]
    rw [if_neg (by simp [hp])]
    exact ⟨rfl, rfl⟩

/-- Witness for C9 at a concrete input line. -/
theorem parse_two_part_disambiguation_witness :
    (parseTextLine ("[9] T (L, Blue)")).size = "L" ∧
    (parseTextLine ("[9] T (L, Blue)")).color = "Blue" :=
  (parse_two_part_disambiguation.1 ("[9] T (L, Blue)") ['9'] ("L, Blue".toList)
      "L" "Blue" (by decide) (by decide) (by decide)).1 ⟨by decide, by decide⟩

/-! ### C5: limit resolution and the zero-default fallback -/

/-- C5 counterexample: with configured defaults (0, 0) and no per-SKU
override, `getSkuLimits` returns (1, 1), not the configured (0, 0): the
`lim.defaultMin || 1` fallback treats a zero default as missing. -/
theorem limits_zero_default_counterexample :
    getSkuLimits ⟨0, 0, []⟩ ("7") = ⟨1, 1⟩ ∧ getSkuLimits ⟨0, 0, []⟩ ("7") ≠ ⟨0, 0⟩ := by
  constructor
  · rfl
  · intro h
    cases h

/-- C5 (amended): resolve uses the per-SKU override when present (floored
to non-negative) and the global default otherwise; positive configured
defaults are returned exactly as configured, but a configured default of
0 is falsy in `lim.defaultMin || 1` / `lim.defaultMax || 1` and falls
back to 1 instead. -/
theorem limits_resolution :
    (∀ (cfg : LimitsConfig) (sku : String),
       cfg.skus.lookup sku = none → 0 < cfg.defaultMin → 0 < cfg.defaultMax →
       getSkuLimits cfg sku = ⟨cfg.defaultMin, cfg.defaultMax⟩) ∧
    (∀ (cfg : LimitsConfig) (sku : String),
       cfg.skus.lookup sku = none → cfg.defaultMin = 0 →
       (getSkuLimits cfg sku).min = 1) ∧
    (∀ (cfg : LimitsConfig) (sku : String),
       cfg.skus.lookup sku = none → cfg.defaultMax = 0 →
       (getSkuLimits cfg sku).max = 1) ∧
    (∀ (cfg : LimitsConfig) (sku : String) (a b : Int),
       cfg.skus.lookup sku = some ⟨some a, some b⟩ →
       getSkuLimits cfg sku = ⟨Max.max 0 a, Max.max 0 b⟩) := by
  refine ⟨?_, ?_, ?_, ?_⟩
  · intro cfg sku hlk h1 h2
    have hm : cfg.defaultMin ≠ 0 := by omega
    have hM : cfg.defaultMax ≠ 0 := by omega
    simp only [getSkuLimits, hlk, Option.none_bind]
    rw [if_neg hm, if_neg hM]
    simp only [Limits.mk.injEq]
    constructor <;> omega
  · intro cfg sku hlk h1
    simp only [getSkuLimits, hlk, Option.none_bind, h1, if_pos rfl]
    decide
  · intro cfg sku hlk h1
    simp only [getSkuLimits, hlk, Option.none_bind, h1, if_pos rfl]
    decide
  · intro cfg sku a b hlk
    simp only [getSkuLimits, hlk, Option.some_bind]

/-- Witness for C5 (amended) at a concrete configuration. -/
theorem limits_resolution_witness :
    getSkuLimits ⟨2, 5, []⟩ ("9") = ⟨2, 5⟩ :=
  limits_resolution.1 ⟨2, 5, []⟩ ("9") (by decide) (by decide) (by decide)

/-! ### Execution lemmas -/

theorem find?_updateFirst {α : Type} (p : α → Bool) (f : α → α) (l : List α) (x : α)
    (h : l.find? p = some x) (hf : p (f x) = true) :
    (updateFirst p f l).find? p = some (f x) := by
  induction l with
  | nil => simp at h
  | cons y ys ih =>
    by_cases hy : p y = true
    · rw [List.find?_cons_of_pos _ hy] at h
      have hyx : y = x := by injection h
      subst hyx
      unfold updateFirst
      rw [if_pos hy]
      exact List.find?_cons_of_pos _ hf
    · rw [List.find?_cons_of_neg _ hy] at h
      unfold updateFirst
      rw [if_neg hy]
      rw [List.find?_cons_of_neg _ hy]
      exact ih h

theorem lookup_setQty {stock : Ledger} {k : String} {st : StockItem} (q : Int)
    (h : stock.lookup k = some st) :
    (setQty stock k q).lookup k = some { st with qty := q } := by
  induction stock with
  | nil => simp at h
  | cons p m ih =>
    obtain ⟨a, b⟩ := p
    by_cases hk : k = a
    · subst hk
      rw [lookup_cons_self] at h
      have hb : b = st := by injection h
      subst hb
      show (setQty ((k, b) :: m) k q).lookup k = _
      unfold setQty
      simp only [List.map_cons, if_pos rfl]
      exact lookup_cons_self
    · rw [lookup_cons_ne hk] at h
      unfold setQty
      simp only [List.map_cons]
      have hne : ¬((a, b).1 = k) := fun hh => hk hh.symm
      rw [if_neg hne]
      rw [lookup_cons_ne hk]
      exact ih h

theorem lookup_setQty_ne {stock : Ledger} {k k2 : String} (q : Int) (h : k2 ≠ k) :
    (setQty stock k q).lookup k2 = stock.lookup k2 := by
  induction stock with
  | nil => rfl
  | cons p m ih =>
    obtain ⟨a, b⟩ := p
    unfold setQty
    simp only [List.map_cons]
    by_cases hk : a = k
    · subst hk
      rw [if_pos rfl]
      rw [lookup_cons_ne h, lookup_cons_ne h]
      exact ih
    · rw [if_neg hk]
      by_cases h2 : k2 = a
      · subst h2
        rw [lookup_cons_self, lookup_cons_self]
      · rw [lookup_cons_ne h2, lookup_cons_ne h2]
        exact ih

/-! ### C3: executing a Done line is an idempotent no-op success -/

/-- C3: executing a line whose status is already Done is a no-op success
for both replan and new-collection execution — it reports success and
leaves the ledger and the run/batch unchanged — so executing the same
Done line twice yields the same state as executing it once. -/
theorem execute_done_idempotent :
    (∀ (runs : List ReplanRun) (stock : Ledger) (runId lineId : String) (now now2 : Int)
       (run : ReplanRun) (line : ReplanLine),
       runId ≠ "" → lineId ≠ "" →
       runs.find? (fun r => r.runId == runId) = some run →
       run.lines.find? (fun l => l.lineId == lineId) = some line →
       line.status = .Done →
       replanExecute runs stock runId lineId now = ⟨true, stock, runs⟩ ∧
       replanExecute (replanExecute runs stock runId lineId now).runs
           (replanExecute runs stock runId lineId now).stock runId lineId now2 =
         replanExecute runs stock runId lineId now2) ∧
    (∀ (batch : NCBatch) (stock : Ledger) (lineId : String) (now now2 : Int)
       (line : NCLine),
       lineId ≠ "" →
       batch.items.find? (fun l => l.lineId == lineId) = some line →
       line.status = .Done →
       ncExecute batch stock lineId now = ⟨true, stock, batch⟩ ∧
       ncExecute (ncExecute batch stock lineId now).batch
           (ncExecute batch stock lineId now).stock lineId now2 =
         ncExecute batch stock lineId now2) := by
  constructor
  · intro runs stock runId lineId now now2 run line hrid hlid hfind hline hdone
    have hnoop : replanExecute runs stock runId lineId now = ⟨true, stock, runs⟩ := by
      unfold replanExecute
      rw [if_neg (by simp [hrid, hlid]), hfind]
      simp [hline, hdone]
    refine ⟨hnoop, ?_⟩
    rw [hnoop]
  · intro batch stock lineId now now2 line hlid hline hdone
    have hnoop : ncExecute batch stock lineId now = ⟨true, stock, batch⟩ := by
      unfold ncExecute
      rw [if_neg hlid]
      simp [hline, hdone]
    refine ⟨hnoop, ?_⟩
    rw [hnoop]

/-- Witness for C3 at a concrete Done line. -/
theorem execute_done_idempotent_witness :
    replanExecute
        [⟨"R1", 0, "All", "s",
          [⟨"1||M||Red", "A", "1", "M", "Red", 10, 2, 8, 3, .Done, some 5⟩]⟩]
        [("1||M||Red", ⟨"1", "M", "Red", "A", 7⟩)] ("R1") ("1||M||Red") 9 =
      ⟨true, [("1||M||Red", ⟨"1", "M", "Red", "A", 7⟩)],
        [⟨"R1", 0, "All", "s",
          [⟨"1||M||Red", "A", "1", "M", "Red", 10, 2, 8, 3, .Done, some 5⟩]⟩]⟩ :=
  (execute_done_idempotent.1
      [⟨"R1", 0, "All", "s",
        [⟨"1||M||Red", "A", "1", "M", "Red", 10, 2, 8, 3, .Done, some 5⟩]⟩]
      [("1||M||Red", ⟨"1", "M", "Red", "A", 7⟩)] ("R1") ("1||M||Red") 9 9
      ⟨"R1", 0, "All", "s",
        [⟨"1||M||Red", "A", "1", "M", "Red", 10, 2, 8, 3, .Done, some 5⟩]⟩
      ⟨"1||M||Red", "A", "1", "M", "Red", 10, 2, 8, 3, .Done, some 5⟩
      (by decide) (by decide) (by decide) (by decide) (by decide)).1

theorem replanExecute_stock_missing {runs : List ReplanRun} {stock : Ledger}
    {runId lineId : String} {run : ReplanRun} {line : ReplanLine} (now : Int)
    (hrid : runId ≠ "") (hlid : lineId ≠ "")
    (hfind : runs.find? (fun r => r.runId == runId) = some run)
    (hline : run.lines.find? (fun l => l.lineId == lineId) = some line)
    (hnd : line.status ≠ .Done) (hlk : stock.lookup lineId = none) :
    replanExecute runs stock runId lineId now = ⟨false, stock, runs⟩ := by
  unfold replanExecute
  rw [if_neg (by simp [hrid, hlid]), hfind]
  simp only [hline]
  rw [if_neg hnd, hlk]

theorem replanExecute_insufficient {runs : List ReplanRun} {stock : Ledger}
    {runId lineId : String} {run : ReplanRun} {line : ReplanLine} (now : Int)
    {st : StockItem}
    (hrid : runId ≠ "") (hlid : lineId ≠ "")
    (hfind : runs.find? (fun r => r.runId == runId) = some run)
    (hline : run.lines.find? (fun l => l.lineId == lineId) = some line)
    (hnd : line.status ≠ .Done) (hlk : stock.lookup lineId = some st)
    (hq : st.qty < line.pullQty) :
    replanExecute runs stock runId lineId now = ⟨false, stock, runs⟩ := by
  unfold replanExecute
  rw [if_neg (by simp [hrid, hlid]), hfind]
  simp only [hline]
  rw [if_neg hnd, hlk]
  dsimp only
  rw [if_pos hq]

theorem replanExecute_success {runs : List ReplanRun} {stock : Ledger}
    {runId lineId : String} {run : ReplanRun} {line : ReplanLine} (now : Int)
    {st : StockItem}
    (hrid : runId ≠ "") (hlid : lineId ≠ "")
    (hfind : runs.find? (fun r => r.runId == runId) = some run)
    (hline : run.lines.find? (fun l => l.lineId == lineId) = some line)
    (hnd : line.status ≠ .Done) (hlk : stock.lookup lineId = some st)
    (hq : ¬(st.qty < line.pullQty)) :
    replanExecute runs stock runId lineId now =
      ⟨true, setQty stock lineId (st.qty - line.pullQty),
       updateFirst (fun r => r.runId == runId)
         (fun r =>
           { r with
             lines := updateFirst (fun l => l.lineId == lineId)
               (fun l => { l with status := .Done, executedAt := some now })
               r.lines })
         runs⟩ := by
  unfold replanExecute
  rw [if_neg (by simp [hrid, hlid]), hfind]
  simp only [hline]
  rw [if_neg hnd, hlk]
  dsimp only
  rw [if_neg hq]

theorem ncExecute_stock_missing {batch : NCBatch} {stock : Ledger} {lineId : String}
    {line : NCLine} (now : Int)
    (hlid : lineId ≠ "")
    (hline : batch.items.find? (fun l => l.lineId == lineId) = some line)
    (hnd : line.status ≠ .Done) (hlk : stock.lookup lineId = none) :
    ncExecute batch stock lineId now = ⟨false, stock, batch⟩ := by
  unfold ncExecute
  rw [if_neg hlid]
  simp only [hline]
  rw [if_neg hnd, hlk]

theorem ncExecute_insufficient {batch : NCBatch} {stock : Ledger} {lineId : String}
    {line : NCLine} (now : Int) {st : StockItem}
    (hlid : lineId ≠ "")
    (hline : batch.items.find? (fun l => l.lineId == lineId) = some line)
    (hnd : line.status ≠ .Done) (hlk : stock.lookup lineId = some st)
    (hq : st.qty < line.qty) :
    ncExecute batch stock lineId now = ⟨false, stock, batch⟩ := by
  unfold ncExecute
  rw [if_neg hlid]
  simp only [hline]
  rw [if_neg hnd, hlk]
  dsimp only
  rw [if_pos hq]

theorem ncExecute_success {batch : NCBatch} {stock : Ledger} {lineId : String}
    {line : NCLine} (now : Int) {st : StockItem}
    (hlid : lineId ≠ "")
    (hline : batch.items.find? (fun l => l.lineId == lineId) = some line)
    (hnd : line.status ≠ .Done) (hlk : stock.lookup lineId = some st)
    (hq : ¬(st.qty < line.qty)) :
    ncExecute batch stock lineId now =
      ⟨true, setQty stock lineId (st.qty - line.qty),
       { batch with
         items := updateFirst (fun l => l.lineId == lineId)
           (fun l => { l with status := .Done, executedAt := some now })
           batch.items }⟩ := by
  unfold ncExecute
  rw [if_neg hlid]
  simp only [hline]
  rw [if_neg hnd, hlk]
  dsimp only
  rw [if_neg hq]

/-! ### C2: single-line execution of a Pending line -/

/-- C2: for a Pending line found in a run (need = pullQty) or in the
new-collection batch (need = qty = 1), single-line execution succeeds iff
the current ledger quantity at the line's key (0 when the key is absent)
is at least the need; on success that quantity becomes exactly the
previous quantity minus the need and the line becomes Done with the
execution timestamp; on failure the ledger and the run/batch documents
are left completely unchanged. -/
theorem execute_pending_line :
    (∀ (runs : List ReplanRun) (stock : Ledger) (runId lineId : String) (now : Int)
       (run : ReplanRun) (line : ReplanLine),
       runId ≠ "" → lineId ≠ "" →
       runs.find? (fun r => r.runId == runId) = some run →
       run.lines.find? (fun l => l.lineId == lineId) = some line →
       line.status = .Pending → 1 ≤ line.pullQty →
       ((replanExecute runs stock runId lineId now).ok = true ↔
          line.pullQty ≤ ((stock.lookup lineId).map StockItem.qty).getD 0) ∧
       ((replanExecute runs stock runId lineId now).ok = true →
          ((replanExecute runs stock runId lineId now).stock.lookup lineId).map
              StockItem.qty =
            some (((stock.lookup lineId).map StockItem.qty).getD 0 - line.pullQty) ∧
          ∃ run',
            (replanExecute runs stock runId lineId now).runs.find?
                (fun r => r.runId == runId) = some run' ∧
            run'.lines.find? (fun l => l.lineId == lineId) =
              some { line with status := .Done, executedAt := some now }) ∧
       ((replanExecute runs stock runId lineId now).ok = false →
          (replanExecute runs stock runId lineId now).stock = stock ∧
          (replanExecute runs stock runId lineId now).runs = runs)) ∧
    (∀ (batch : NCBatch) (stock : Ledger) (lineId : String) (now : Int) (line : NCLine),
       lineId ≠ "" →
       batch.items.find? (fun l => l.lineId == lineId) = some line →
       line.status = .Pending → line.qty = 1 →
       ((ncExecute batch stock lineId now).ok = true ↔
          1 ≤ ((stock.lookup lineId).map StockItem.qty).getD 0) ∧
       ((ncExecute batch stock lineId now).ok = true →
          ((ncExecute batch stock lineId now).stock.lookup lineId).map StockItem.qty =
            some (((stock.lookup lineId).map StockItem.qty).getD 0 - 1) ∧
          (ncExecute batch stock lineId now).batch.items.find?
              (fun l => l.lineId == lineId) =
            some { line with status := .Done, executedAt := some now }) ∧
       ((ncExecute batch stock lineId now).ok = false →
          (ncExecute batch stock lineId now).stock = stock ∧
          (ncExecute batch stock lineId now).batch = batch)) := by
  constructor
  · intro runs stock runId lineId now run line hrid hlid hfind hline hpend hpos
    have hnd : line.status ≠ .Done := by rw [hpend]; intro hc; cases hc
    cases hlk : stock.lookup lineId with
    | none =>
      have hred := replanExecute_stock_missing now hrid hlid hfind hline hnd hlk
      rw [hred]
      refine ⟨?_, ?_, fun _ => ⟨rfl, rfl⟩⟩
      · constructor
        · intro hc; cases hc
        · intro hc; exfalso; simp at hc; omega
      · intro hc; cases hc
    | some st =>
      by_cases hq : st.qty < line.pullQty
      · have hred := replanExecute_insufficient now hrid hlid hfind hline hnd hlk hq
        rw [hred]
        refine ⟨?_, ?_, fun _ => ⟨rfl, rfl⟩⟩
        · constructor
          · intro hc; cases hc
          · intro hc; exfalso; simp at hc; omega
        · intro hc; cases hc
      · have hred := replanExecute_success now hrid hlid hfind hline hnd hlk hq
        rw [hred]
        refine ⟨?_, fun _ => ⟨?_, ?_⟩, ?_⟩
        · constructor
          · intro _
            show line.pullQty ≤ st.qty
            omega
          · intro _; rfl
        · show ((setQty stock lineId (st.qty - line.pullQty)).lookup lineId).map
              StockItem.qty = some (st.qty - line.pullQty)
          rw [lookup_setQty _ hlk]
          rfl
        · refine ⟨{ run with
              lines := updateFirst (fun l => l.lineId == lineId)
                (fun l => { l with status := .Done, executedAt := some now })
                run.lines }, ?_, ?_⟩
          · exact find?_updateFirst _ _ _ _ hfind (by
              have hp := List.find?_some hfind
              simpa using hp)
          · exact find?_updateFirst _ _ _ _ hline (by
              have hp := List.find?_some hline
              simpa using hp)
        · intro hc; cases hc
  · intro batch stock lineId now line hlid hline hpend hq1
    have hnd : line.status ≠ .Done := by rw [hpend]; intro hc; cases hc
    cases hlk : stock.lookup lineId with
    | none =>
      have hred := ncExecute_stock_missing now hlid hline hnd hlk
      rw [hred]
      refine ⟨?_, ?_, fun _ => ⟨rfl, rfl⟩⟩
      · constructor
        · intro hc; cases hc
        · intro hc
          exfalso
          have hc2 : (1 : Int) ≤ 0 := hc
          omega
      · intro hc; cases hc
    | some st =>
      by_cases hq : st.qty < line.qty
      · have hred := ncExecute_insufficient now hlid hline hnd hlk hq
        rw [hred]
        refine ⟨?_, ?_, fun _ => ⟨rfl, rfl⟩⟩
        · constructor
          · intro hc; cases hc
          · intro hc
            exfalso
            have hc2 : (1 : Int) ≤ st.qty := hc
            omega
        · intro hc; cases hc
      · have hred := ncExecute_success now hlid hline hnd hlk hq
        rw [hred]
        refine ⟨?_, fun _ => ⟨?_, ?_⟩, ?_⟩
        · constructor
          · intro _
            show (1 : Int) ≤ st.qty
            omega
          · intro _; rfl
        · show ((setQty stock lineId (st.qty - line.qty)).lookup lineId).map
              StockItem.qty = some (st.qty - 1)
          rw [lookup_setQty _ hlk]
          show some (st.qty - line.qty) = some (st.qty - 1)
          rw [hq1]
        · exact find?_updateFirst _ _ _ _ hline (by
            have hp := List.find?_some hline
            simpa using hp)
        · intro hc; cases hc

/-- Witness for C2 at a concrete Pending line, both engines. -/
theorem execute_pending_line_witness :
    ((replanExecute
        [⟨"R1", 0, "All", "s",
          [⟨"1||M||Red", "A", "1", "M", "Red", 10, 2, 8, 3, .Pending, none⟩]⟩]
        [("1||M||Red", ⟨"1", "M", "Red", "A", 7⟩)] ("R1") ("1||M||Red") 9).ok = true ↔
      (3 : Int) ≤ ((([("1||M||Red", ⟨"1", "M", "Red", "A", 7⟩)] :
        Ledger).lookup ("1||M||Red")).map StockItem.qty).getD 0) ∧
    ((ncExecute ⟨some 0, some .BasePendingAll,
        [⟨"1||M||Red", "A", "1", "M", "Red", 1, .Pending, none⟩]⟩
        [("1||M||Red", ⟨"1", "M", "Red", "A", 7⟩)] ("1||M||Red") 9).ok = true ↔
      (1 : Int) ≤ ((([("1||M||Red", ⟨"1", "M", "Red", "A", 7⟩)] :
        Ledger).lookup ("1||M||Red")).map StockItem.qty).getD 0) :=
  ⟨(execute_pending_line.1
      [⟨"R1", 0, "All", "s",
        [⟨"1||M||Red", "A", "1", "M", "Red", 10, 2, 8, 3, .Pending, none⟩]⟩]
      [("1||M||Red", ⟨"1", "M", "Red", "A", 7⟩)] ("R1") ("1||M||Red") 9
      ⟨"R1", 0, "All", "s",
        [⟨"1||M||Red", "A", "1", "M", "Red", 10, 2, 8, 3, .Pending, none⟩]⟩
      ⟨"1||M||Red", "A", "1", "M", "Red", 10, 2, 8, 3, .Pending, none⟩
      (by decide) (by decide) (by decide) (by decide) (by decide) (by decide)).1,
   (execute_pending_line.2
      ⟨some 0, some .BasePendingAll,
        [⟨"1||M||Red", "A", "1", "M", "Red", 1, .Pending, none⟩]⟩
      [("1||M||Red", ⟨"1", "M", "Red", "A", 7⟩)] ("1||M||Red") 9
      ⟨"1||M||Red", "A", "1", "M", "Red", 1, .Pending, none⟩
      (by decide) (by decide) (by decide) (by decide)).1⟩

/-! ### Generation lemmas -/

theorem replanCandidate_eq_some {stockItems : Ledger} {categoryFilter : String}
    {cfg : LimitsConfig} {k : String} {q : Int} {l : ReplanLine} :
    replanCandidate stockItems categoryFilter cfg k q = some l ↔
    ∃ st, stockItems.lookup k = some st ∧ 0 < q ∧
      (categoryFilter = "" ∨ st.category = categoryFilter) ∧
      0 < st.qty - q ∧
      0 < clampPull (st.qty - q) (getSkuLimits cfg st.sku).min
        (getSkuLimits cfg st.sku).max ∧
      l = ⟨k, st.category, st.sku, st.size, st.color, st.qty, q, st.qty - q,
           clampPull (st.qty - q) (getSkuLimits cfg st.sku).min
             (getSkuLimits cfg st.sku).max,
           .Pending, none⟩ := by
  unfold replanCandidate
  by_cases hq0 : q ≤ 0
  · rw [if_pos hq0]
    constructor
    · intro h; cases h
    · rintro ⟨st, _, hq, _⟩; omega
  · rw [if_neg hq0]
    cases hlk : stockItems.lookup k with
    | none =>
      constructor
      · intro h; cases h
      · rintro ⟨st, hlk2, _⟩; cases hlk2
    | some st =>
      dsimp only
      constructor
      · intro h
        by_cases hcat : categoryFilter ≠ "" ∧ st.category ≠ categoryFilter
        · rw [if_pos hcat] at h; cases h
        · rw [if_neg hcat] at h
          by_cases hbal : st.qty - q ≤ 0
          · rw [if_pos hbal] at h; cases h
          · rw [if_neg hbal] at h
            by_cases hpull : clampPull (st.qty - q) (getSkuLimits cfg st.sku).min
                (getSkuLimits cfg st.sku).max ≤ 0
            · rw [if_pos hpull] at h; cases h
            · rw [if_neg hpull] at h
              refine ⟨st, rfl, by omega, ?_, by omega, by omega, ?_⟩
              · by_cases hc1 : categoryFilter = ""
                · exact Or.inl hc1
                · right
                  by_contra hc2
                  exact hcat ⟨hc1, hc2⟩
              · injection h with h2
                exact h2.symm
      · rintro ⟨st2, hlk2, hq, hcat, hbal, hpull, rfl⟩
        have hst : st = st2 := by injection hlk2
        rw [hst]
        rw [if_neg (by
          rintro ⟨hc1, hc2⟩
          rcases hcat with hc | hc
          · exact hc1 hc
          · exact hc2 hc)]
        rw [if_neg (by omega)]
        rw [if_neg (by omega)]

theorem mem_generateLines {salesParsed : List AggRow} {stockItems : Ledger}
    {categoryFilter : String} {cfg : LimitsConfig} {l : ReplanLine} :
    l ∈ generateLines salesParsed stockItems categoryFilter cfg ↔
    ∃ p ∈ buildSalesMap salesParsed,
      replanCandidate stockItems categoryFilter cfg p.1 p.2 = some l := by
  unfold generateLines
  rw [List.mem_mergeSort, List.mem_filterMap]

theorem upsertQty_keys_nodup {m : List (String × Int)} {k : String} {q : Int}
    (h : (m.map Prod.fst).Nodup) : ((upsertQty m k q).map Prod.fst).Nodup := by
  unfold upsertQty
  by_cases hs : (m.lookup k).isSome = true
  · rw [if_pos hs]
    have hkeys : (m.map (fun p => if p.1 = k then (p.1, p.2 + q) else p)).map Prod.fst =
        m.map Prod.fst := by
      rw [List.map_map]
      apply List.map_congr_left
      intro p _
      by_cases hp : p.1 = k <;> simp [hp]
    rw [hkeys]
    exact h
  · rw [if_neg hs]
    rw [List.map_append]
    simp only [List.map_cons, List.map_nil]
    rw [List.nodup_append]
    refine ⟨h, List.nodup_singleton _, ?_⟩
    intro a ha hb
    simp only [List.mem_singleton] at hb
    subst hb
    exact hs ((lookup_isSome_iff_mem_keys m a).mpr ha)

theorem buildSalesMap_go_keys_nodup (parsed : List AggRow) (m : List (String × Int))
    (h : (m.map Prod.fst).Nodup) :
    ((parsed.foldl (fun m it => upsertQty m (makeKey it.sku it.size it.color) it.qty)
        m).map Prod.fst).Nodup := by
  induction parsed generalizing m with
  | nil => exact h
  | cons it rest ih =>
    exact ih _ (upsertQty_keys_nodup h)

theorem buildSalesMap_keys_nodup (parsed : List AggRow) :
    ((buildSalesMap parsed).map Prod.fst).Nodup :=
  buildSalesMap_go_keys_nodup parsed [] (by simp)

/-! ### C8: pullQty ≤ balance ≤ stockQty on generated lines -/

/-- C8: every line of a generated replan run satisfies
pullQty ≤ balance ≤ stockQty, with the values as recorded on the line. -/
theorem generated_line_bounds :
    ∀ (salesParsed : List AggRow) (stockItems : Ledger) (categoryFilter : String)
      (cfg : LimitsConfig) (l : ReplanLine),
      l ∈ generateLines salesParsed stockItems categoryFilter cfg →
      l.pullQty ≤ l.balance ∧ l.balance ≤ l.stockQty := by
  intro salesParsed stockItems categoryFilter cfg l hl
  obtain ⟨p, hp, he⟩ := mem_generateLines.mp hl
  obtain ⟨st, hlk, hq, hcat, hbal, hpull, rfl⟩ := replanCandidate_eq_some.mp he
  refine ⟨?_, by dsimp only; omega⟩
  dsimp only
  unfold clampPull
  split
  · omega
  · exact min_le_left _ _

/-- Witness for C8 on a concretely generated run. -/
theorem generated_line_bounds_witness :
    (⟨"1||||", "", "1", "", "", 10, 4, 6, 3, .Pending, none⟩ : ReplanLine).pullQty ≤
        (⟨"1||||", "", "1", "", "", 10, 4, 6, 3, .Pending, none⟩ : ReplanLine).balance ∧
      (⟨"1||||", "", "1", "", "", 10, 4, 6, 3, .Pending, none⟩ : ReplanLine).balance ≤
        (⟨"1||||", "", "1", "", "", 10, 4, 6, 3, .Pending, none⟩ : ReplanLine).stockQty :=
  generated_line_bounds [⟨"", "1", "", "", 4⟩] [("1||||", ⟨"1", "", "", "", 10⟩)] ""
    ⟨1, 3, []⟩ ⟨"1||||", "", "1", "", "", 10, 4, 6, 3, .Pending, none⟩
    (by
      rw [mem_generateLines]
      refine ⟨("1||||", 4), by decide, ?_⟩
      decide)

/-! ### C10: keys with non-positive aggregated sales are skipped -/

/-- C10: replan generation skips every aggregated sales key whose summed
sales quantity is at most 0 — no run line is emitted for such a key even
when it is present in the ledger — and consequently every generated line
records a strictly positive salesQty. -/
theorem generation_skips_nonpositive_sales :
    ∀ (salesParsed : List AggRow) (stockItems : Ledger) (categoryFilter : String)
      (cfg : LimitsConfig),
      (∀ l ∈ generateLines salesParsed stockItems categoryFilter cfg,
         0 < l.salesQty) ∧
      (∀ k q, (buildSalesMap salesParsed).lookup k = some q → q ≤ 0 →
         ∀ l ∈ generateLines salesParsed stockItems categoryFilter cfg,
           l.lineId ≠ k) := by
  intro salesParsed stockItems categoryFilter cfg
  constructor
  · intro l hl
    obtain ⟨p, hp, he⟩ := mem_generateLines.mp hl
    obtain ⟨st, hlk, hq, hcat, hbal, hpull, rfl⟩ := replanCandidate_eq_some.mp he
    exact hq
  · intro k q hlkq hq l hl hid
    obtain ⟨p, hp, he⟩ := mem_generateLines.mp hl
    obtain ⟨st, hlk, hqpos, hcat, hbal, hpull, rfl⟩ := replanCandidate_eq_some.mp he
    have hid2 : p.1 = k := hid
    subst hid2
    have hnd := buildSalesMap_keys_nodup salesParsed
    have hlkp : (buildSalesMap salesParsed).lookup p.1 = some p.2 :=
      lookup_eq_some_of_mem_nodup hnd (by
        have hp2 : (p.1, p.2) ∈ buildSalesMap salesParsed := by
          rw [show (p.1, p.2) = p from rfl]
          exact hp
        exact hp2)
    rw [hlkq] at hlkp
    injection hlkp with hpq
    omega

/-- Witness for C10: a concrete generation where the zero-sales key is in
the ledger with positive stock yet yields no line. -/
theorem generation_skips_nonpositive_sales_witness :
    ∀ l ∈ generateLines [⟨"", "1", "", "", 0⟩, ⟨"", "2", "", "", 4⟩]
        [("1||||", ⟨"1", "", "", "", 10⟩), ("2||||", ⟨"2", "", "", "", 10⟩)] ""
        ⟨1, 3, []⟩,
      l.lineId ≠ "1||||" :=
  (generation_skips_nonpositive_sales [⟨"", "1", "", "", 0⟩, ⟨"", "2", "", "", 4⟩]
      [("1||||", ⟨"1", "", "", "", 10⟩), ("2||||", ⟨"2", "", "", "", 10⟩)] ""
      ⟨1, 3, []⟩).2 ("1||||") 0 (by decide) (by decide)

/-! ### Ledger key lemmas -/

theorem setItem_keys_nodup {items : Ledger} {k : String} {it : StockItem}
    (h : (items.map Prod.fst).Nodup) : ((setItem items k it).map Prod.fst).Nodup := by
  unfold setItem
  by_cases hs : (items.lookup k).isSome = true
  · rw [if_pos hs]
    have hkeys : ((items.map (fun p => if p.1 = k then (p.1, it) else p)).map Prod.fst) =
        items.map Prod.fst := by
      rw [List.map_map]
      apply List.map_congr_left
      intro p _
      by_cases hp : p.1 = k <;> simp [hp]
    rw [hkeys]
    exact h
  · rw [if_neg hs]
    rw [List.map_append]
    simp only [List.map_cons, List.map_nil]
    rw [List.nodup_append]
    refine ⟨h, List.nodup_singleton _, ?_⟩
    intro a ha hb
    simp only [List.mem_singleton] at hb
    subst hb
    exact hs ((lookup_isSome_iff_mem_keys items a).mpr ha)

theorem buildItems_go_keys_nodup (parsed : List AggRow) (acc : Ledger)
    (h : (acc.map Prod.fst).Nodup) :
    ((parsed.foldl
        (fun acc it =>
          setItem acc (makeKey it.sku it.size it.color)
            ⟨it.sku, it.size, it.color, it.category, it.qty⟩)
        acc).map Prod.fst).Nodup := by
  induction parsed generalizing acc with
  | nil => exact h
  | cons it rest ih => exact ih _ (setItem_keys_nodup h)

theorem buildItems_keys_nodup (parsed : List AggRow) :
    ((buildItems parsed).map Prod.fst).Nodup :=
  buildItems_go_keys_nodup parsed [] (by simp)

theorem nodup_filterMap_keys {β γ : Type} (f : String × β → Option γ) (g : γ → String)
    (m : List (String × β)) (hnd : (m.map Prod.fst).Nodup)
    (hf : ∀ p c, f p = some c → g c = p.1) :
    ((m.filterMap f).map g).Nodup := by
  induction m with
  | nil => simp
  | cons p rest ih =>
    simp only [List.map_cons, List.nodup_cons] at hnd
    rw [List.filterMap_cons]
    cases hfp : f p with
    | none => exact ih hnd.2
    | some c =>
      simp only [List.map_cons, List.nodup_cons]
      refine ⟨?_, ih hnd.2⟩
      intro hmem
      obtain ⟨c2, hc2, hg⟩ := List.mem_map.mp hmem
      obtain ⟨p2, hp2, hf2⟩ := List.mem_filterMap.mp hc2
      have h1 : g c = p.1 := hf p c hfp
      have h2 : g c2 = p2.1 := hf p2 c2 hf2
      apply hnd.1
      rw [← h1, ← hg, h2]
      exact List.mem_map.mpr ⟨p2, hp2, rfl⟩

/-! ### C7: new-collection batch derived from a stock upload -/

/-- C7: a stock snapshot upload replaces the new-collection batch
wholesale: with an empty prior ledger the batch is in BASE mode and holds
exactly one Pending line with qty 1 for every key of the new snapshot
whose quantity is at least 1; with a non-empty prior ledger the batch is
in UPDATE mode and holds Pending qty-1 lines exactly for the new-snapshot
keys that are absent from the prior ledger (and have quantity at least
1) — pre-existing keys are never re-surfaced. -/
theorem stock_update_new_collection :
    (∀ (rows : List (String × Int)) (now : Int),
       (stockUpdate [] rows now).2.mode = some .BasePendingAll ∧
       (∀ l ∈ (stockUpdate [] rows now).2.items,
          l.status = .Pending ∧ l.qty = 1 ∧
          ∃ it, (stockUpdate [] rows now).1.lookup l.lineId = some it ∧
            1 ≤ it.qty ∧ l = ncLineOf l.lineId it) ∧
       (∀ (k : String) (it : StockItem),
          (stockUpdate [] rows now).1.lookup k = some it → 1 ≤ it.qty →
          ∃ l ∈ (stockUpdate [] rows now).2.items, l.lineId = k) ∧
       ((stockUpdate [] rows now).2.items.map NCLine.lineId).Nodup) ∧
    (∀ (oldItems : Ledger) (rows : List (String × Int)) (now : Int),
       oldItems ≠ [] →
       (stockUpdate oldItems rows now).2.mode = some .UpdatePendingNewOnly ∧
       (∀ l ∈ (stockUpdate oldItems rows now).2.items,
          oldItems.lookup l.lineId = none ∧ l.status = .Pending ∧ l.qty = 1) ∧
       (∀ (k : String) (it : StockItem),
          (stockUpdate oldItems rows now).1.lookup k = some it →
          oldItems.lookup k = none → 1 ≤ it.qty →
          ∃ l ∈ (stockUpdate oldItems rows now).2.items, l.lineId = k) ∧
       ((stockUpdate oldItems rows now).2.items.map NCLine.lineId).Nodup) := by
  constructor
  · intro rows now
    have hred : stockUpdate [] rows now =
        (buildItems (parseRows rows),
         ⟨some now, some .BasePendingAll,
          (buildItems (parseRows rows)).filterMap
            (fun p => if 1 ≤ p.2.qty then some (ncLineOf p.1 p.2) else none)⟩) := by
      unfold stockUpdate
      rw [if_pos (show ([] : Ledger).isEmpty = true from rfl)]
    rw [hred]
    refine ⟨rfl, ?_, ?_, ?_⟩
    · intro l hl
      obtain ⟨p, hp, hfp⟩ := List.mem_filterMap.mp hl
      by_cases h1 : 1 ≤ p.2.qty
      · rw [if_pos h1] at hfp
        injection hfp with hl2
        subst hl2
        refine ⟨rfl, rfl, p.2, ?_, h1, rfl⟩
        exact lookup_eq_some_of_mem_nodup (buildItems_keys_nodup _) (by exact hp)
      · rw [if_neg h1] at hfp
        cases hfp
    · intro k it hlk h1
      refine ⟨ncLineOf k it, ?_, rfl⟩
      apply List.mem_filterMap.mpr
      refine ⟨(k, it), mem_of_lookup_eq_some hlk, ?_⟩
      rw [if_pos h1]
    · apply nodup_filterMap_keys _ _ _ (buildItems_keys_nodup _)
      intro p c hfc
      by_cases h1 : 1 ≤ p.2.qty
      · rw [if_pos h1] at hfc
        injection hfc with hc
        rw [← hc]
        rfl
      · rw [if_neg h1] at hfc
        cases hfc
  · intro oldItems rows now hne
    have hie : oldItems.isEmpty = false := by
      cases oldItems with
      | nil => exact absurd rfl hne
      | cons a l => rfl
    have hred : stockUpdate oldItems rows now =
        (buildItems (parseRows rows),
         ⟨some now, some .UpdatePendingNewOnly,
          (buildItems (parseRows rows)).filterMap
            (fun p =>
              if (oldItems.lookup p.1).isNone = true ∧ 1 ≤ p.2.qty then
                some (ncLineOf p.1 p.2)
              else none)⟩) := by
      unfold stockUpdate
      rw [hie]
      rfl
    rw [hred]
    refine ⟨rfl, ?_, ?_, ?_⟩
    · intro l hl
      obtain ⟨p, hp, hfp⟩ := List.mem_filterMap.mp hl
      by_cases h1 : (oldItems.lookup p.1).isNone = true ∧ 1 ≤ p.2.qty
      · rw [if_pos h1] at hfp
        injection hfp with hl2
        subst hl2
        refine ⟨?_, rfl, rfl⟩
        show oldItems.lookup p.1 = none
        exact Option.isNone_iff_eq_none.mp h1.1
      · rw [if_neg h1] at hfp
        cases hfp
    · intro k it hlk hold h1
      refine ⟨ncLineOf k it, ?_, rfl⟩
      apply List.mem_filterMap.mpr
      refine ⟨(k, it), mem_of_lookup_eq_some hlk, ?_⟩
      rw [if_pos ⟨by rw [hold]; rfl, h1⟩]
    · apply nodup_filterMap_keys _ _ _ (buildItems_keys_nodup _)
      intro p c hfc
      by_cases h1 : (oldItems.lookup p.1).isNone = true ∧ 1 ≤ p.2.qty
      · rw [if_pos h1] at hfc
        injection hfc with hc
        rw [← hc]
        rfl
      · rw [if_neg h1] at hfc
        cases hfc

/-- Witness for C7 realizing the spec scenario: a base upload with three
in-stock keys yields a BASE batch with one Pending qty-1 line per key, and
a follow-up upload with one additional key yields an UPDATE batch whose
lines all target keys absent from the prior ledger. -/
theorem stock_update_new_collection_witness :
    (stockUpdate [] [(("[1] A (M, Red)"), 5), (("[2] A (L, Blue)"), 2),
        (("[3] A (S, Green)"), 1)] 0).2.mode = some .BasePendingAll ∧
    (∀ l ∈ (stockUpdate []
        [(("[1] A (M, Red)"), 5), (("[2] A (L, Blue)"), 2),
         (("[3] A (S, Green)"), 1)] 0).2.items,
       l.status = .Pending ∧ l.qty = 1 ∧
       ∃ it, (stockUpdate []
          [(("[1] A (M, Red)"), 5), (("[2] A (L, Blue)"), 2),
           (("[3] A (S, Green)"), 1)] 0).1.lookup l.lineId = some it ∧
         1 ≤ it.qty ∧ l = ncLineOf l.lineId it) ∧
    (stockUpdate [("1||M||Red", ⟨"1", "M", "Red", "A", 5⟩)]
        [(("[1] A (M, Red)"), 5), (("[4] A (M, Red)"), 2)] 1).2.mode =
      some .UpdatePendingNewOnly ∧
    (∀ l ∈ (stockUpdate [("1||M||Red", ⟨"1", "M", "Red", "A", 5⟩)]
        [(("[1] A (M, Red)"), 5), (("[4] A (M, Red)"), 2)] 1).2.items,
       ([("1||M||Red", ⟨"1", "M", "Red", "A", 5⟩)] :
          Ledger).lookup l.lineId = none ∧ l.status = .Pending ∧ l.qty = 1) :=
  ⟨(stock_update_new_collection.1
      [(("[1] A (M, Red)"), 5), (("[2] A (L, Blue)"), 2),
       (("[3] A (S, Green)"), 1)] 0).1,
   (stock_update_new_collection.1
      [(("[1] A (M, Red)"), 5), (("[2] A (L, Blue)"), 2),
       (("[3] A (S, Green)"), 1)] 0).2.1,
   (stock_update_new_collection.2 [("1||M||Red", ⟨"1", "M", "Red", "A", 5⟩)]
      [(("[1] A (M, Red)"), 5), (("[4] A (M, Red)"), 2)] 1 (by decide)).1,
   (stock_update_new_collection.2 [("1||M||Red", ⟨"1", "M", "Red", "A", 5⟩)]
      [(("[1] A (M, Red)"), 5), (("[4] A (M, Red)"), 2)] 1 (by decide)).2.1⟩

/-! ### Non-negativity lemmas -/

theorem upsertAgg_nonneg {m : List (String × AggRow)} {k : String} {row : AggRow}
    (hm : ∀ p ∈ m, 0 ≤ p.2.qty) (hq : 0 ≤ row.qty) :
    ∀ p ∈ upsertAgg m k row, 0 ≤ p.2.qty := by
  unfold upsertAgg
  split
  · intro p hp
    obtain ⟨p0, hp0, rfl⟩ := List.mem_map.mp hp
    dsimp only
    split
    · dsimp only
      have := hm p0 hp0
      omega
    · exact hm p0 hp0
  · intro p hp
    rcases List.mem_append.mp hp with h | h
    · exact hm p h
    · simp only [List.mem_singleton] at h
      subst h
      exact hq

theorem parseRowsGo_nonneg (rows : List (String × Int)) :
    ∀ (cat : String) (agg : List (String × AggRow)),
      (∀ p ∈ agg, 0 ≤ p.2.qty) → (∀ r ∈ rows, 0 ≤ r.2) →
      ∀ p ∈ parseRowsGo rows cat agg, 0 ≤ p.2.qty := by
  induction rows with
  | nil =>
    intro cat agg hagg _
    exact hagg
  | cons r rest ih =>
    intro cat agg hagg hrows
    obtain ⟨rawText, rawQty⟩ := r
    have hq : 0 ≤ rawQty := hrows _ (List.mem_cons_self _ _)
    have hrest : ∀ x ∈ rest, 0 ≤ x.2 := fun x hx => hrows x (List.mem_cons_of_mem _ hx)
    unfold parseRowsGo
    split
    · exact ih cat agg hagg hrest
    · split
      · split
        · exact ih _ agg hagg hrest
        · exact ih cat agg hagg hrest
      · split
        · exact ih cat agg hagg hrest
        · exact ih cat _ (upsertAgg_nonneg hagg hq) hrest

theorem parseRows_nonneg {rows : List (String × Int)}
    (h : ∀ r ∈ rows, 0 ≤ r.2) : ∀ a ∈ parseRows rows, 0 ≤ a.qty := by
  intro a ha
  unfold parseRows at ha
  obtain ⟨p, hp, rfl⟩ := List.mem_map.mp ha
  exact parseRowsGo_nonneg rows "" [] (by simp) h p hp

theorem setItem_nonneg {items : Ledger} {k : String} {it : StockItem}
    (hm : ∀ p ∈ items, 0 ≤ p.2.qty) (hq : 0 ≤ it.qty) :
    ∀ p ∈ setItem items k it, 0 ≤ p.2.qty := by
  unfold setItem
  split
  · intro p hp
    obtain ⟨p0, hp0, rfl⟩ := List.mem_map.mp hp
    split
    · exact hq
    · exact hm p0 hp0
  · intro p hp
    rcases List.mem_append.mp hp with h | h
    · exact hm p h
    · simp only [List.mem_singleton] at h
      subst h
      exact hq

theorem buildItems_go_nonneg (parsed : List AggRow) (acc : Ledger)
    (hacc : ∀ p ∈ acc, 0 ≤ p.2.qty) (hparsed : ∀ a ∈ parsed, 0 ≤ a.qty) :
    ∀ p ∈ parsed.foldl
        (fun acc it =>
          setItem acc (makeKey it.sku it.size it.color)
            ⟨it.sku, it.size, it.color, it.category, it.qty⟩)
        acc, 0 ≤ p.2.qty := by
  induction parsed generalizing acc with
  | nil => exact hacc
  | cons it rest ih =>
    exact ih _
      (setItem_nonneg hacc (hparsed it (List.mem_cons_self _ _)))
      (fun a ha => hparsed a (List.mem_cons_of_mem _ ha))

theorem buildItems_nonneg {parsed : List AggRow}
    (h : ∀ a ∈ parsed, 0 ≤ a.qty) : ∀ p ∈ buildItems parsed, 0 ≤ p.2.qty :=
  buildItems_go_nonneg parsed [] (by simp) h

theorem setQty_nonneg {stock : Ledger} {k : String} {q : Int}
    (hs : ∀ p ∈ stock, 0 ≤ p.2.qty) (hq : 0 ≤ q) :
    ∀ p ∈ setQty stock k q, 0 ≤ p.2.qty := by
  intro p hp
  obtain ⟨p0, hp0, rfl⟩ := List.mem_map.mp hp
  dsimp only
  split
  · exact hq
  · exact hs p0 hp0

theorem replanExecute_stock_nonneg {runs : List ReplanRun} {stock : Ledger}
    {runId lineId : String} {now : Int}
    (hstock : ∀ p ∈ stock, 0 ≤ p.2.qty) :
    ∀ p ∈ (replanExecute runs stock runId lineId now).stock, 0 ≤ p.2.qty := by
  unfold replanExecute
  split
  · exact hstock
  · split
    · exact hstock
    · split
      · exact hstock
      · split
        · exact hstock
        · split
          · exact hstock
          · split
            · exact hstock
            · exact setQty_nonneg hstock (by omega)

theorem ncExecute_stock_nonneg {batch : NCBatch} {stock : Ledger}
    {lineId : String} {now : Int}
    (hstock : ∀ p ∈ stock, 0 ≤ p.2.qty) :
    ∀ p ∈ (ncExecute batch stock lineId now).stock, 0 ≤ p.2.qty := by
  unfold ncExecute
  split
  · exact hstock
  · split
    · exact hstock
    · split
      · exact hstock
      · split
        · exact hstock
        · split
          · exact hstock
          · exact setQty_nonneg hstock (by omega)

theorem execAllStep_stock_nonneg {stock : Ledger} {line : ReplanLine} {now : Int}
    (hstock : ∀ p ∈ stock, 0 ≤ p.2.qty) :
    ∀ p ∈ (execAllStep stock line now).1, 0 ≤ p.2.qty := by
  unfold execAllStep
  split
  · exact hstock
  · split
    · exact hstock
    · split
      · exact hstock
      · split
        · exact hstock
        · exact setQty_nonneg hstock (by omega)

theorem ncExecAllStep_stock_nonneg {stock : Ledger} {line : NCLine} {now : Int}
    (hstock : ∀ p ∈ stock, 0 ≤ p.2.qty) :
    ∀ p ∈ (ncExecAllStep stock line now).1, 0 ≤ p.2.qty := by
  unfold ncExecAllStep
  split
  · exact hstock
  · split
    · exact hstock
    · split
      · exact hstock
      · split
        · exact hstock
        · exact setQty_nonneg hstock (by omega)

theorem replanExecuteAll_stock_nonneg {stock : Ledger} {lines : List ReplanLine}
    {now : Int} (hstock : ∀ p ∈ stock, 0 ≤ p.2.qty) :
    ∀ p ∈ (replanExecuteAll stock lines now).1, 0 ≤ p.2.qty := by
  induction lines generalizing stock with
  | nil => exact hstock
  | cons l ls ih =>
    show ∀ p ∈ (replanExecuteAll (execAllStep stock l now).1 ls now).1, 0 ≤ p.2.qty
    exact ih (execAllStep_stock_nonneg hstock)

theorem ncExecuteAll_stock_nonneg {stock : Ledger} {items : List NCLine}
    {now : Int} (hstock : ∀ p ∈ stock, 0 ≤ p.2.qty) :
    ∀ p ∈ (ncExecuteAll stock items now).1, 0 ≤ p.2.qty := by
  induction items generalizing stock with
  | nil => exact hstock
  | cons l ls ih =>
    show ∀ p ∈ (ncExecuteAll (ncExecAllStep stock l now).1 ls now).1, 0 ≤ p.2.qty
    exact ih (ncExecAllStep_stock_nonneg hstock)

theorem execAllStep_decrement {stock : Ledger} {line : ReplanLine} {now : Int}
    {st : StockItem}
    (hpend : line.status = .Pending) (hlk : stock.lookup line.lineId = some st)
    (hpos : 0 < line.pullQty) (hle : line.pullQty ≤ st.qty) :
    (execAllStep stock line now).2 =
      { line with status := .Done, executedAt := some now } ∧
    ((execAllStep stock line now).1.lookup line.lineId).map StockItem.qty =
      some (st.qty - line.pullQty) := by
  have hred : execAllStep stock line now =
      (setQty stock line.lineId (st.qty - line.pullQty),
       { line with status := .Done, executedAt := some now }) := by
    unfold execAllStep
    rw [if_neg (by rw [hpend]; intro hc; cases hc), hlk]
    dsimp only
    rw [if_neg (by omega), if_neg (by omega)]
  rw [hred]
  refine ⟨rfl, ?_⟩
  show ((setQty stock line.lineId (st.qty - line.pullQty)).lookup line.lineId).map
      StockItem.qty = some (st.qty - line.pullQty)
  rw [lookup_setQty _ hlk]
  rfl

/-! ### C4: qty non-negativity -/

/-- C4 counterexample: a stock snapshot upload whose row carries a
negative quantity stores it as-is, so the fresh ledger already contains an
item with qty < 0, contradicting the claim for the snapshot-replace
operation. -/
theorem stock_replace_negative_counterexample :
    ((stockUpdate [] [(("[1] A (M, Red)"), -3)] 0).1.lookup ("1||M||Red")) =
      some ⟨"1", "M", "Red", "", -3⟩ ∧ (-3 : Int) < 0 := by
  constructor
  · rfl
  · decide

/-- C4 (amended): every execution path (single-line and bulk, replan and
new-collection) preserves ledger non-negativity and, in the bulk pass, a
line flipped to Done had sufficient stock and decrements its key by
exactly its need; a snapshot replace yields a ledger with all qty ≥ 0
provided every uploaded row quantity is ≥ 0 — a negative uploaded
quantity is stored unsanitized. -/
theorem qty_nonneg_preservation :
    (∀ (oldItems : Ledger) (rows : List (String × Int)) (now : Int),
       (∀ r ∈ rows, 0 ≤ r.2) →
       ∀ p ∈ (stockUpdate oldItems rows now).1, 0 ≤ p.2.qty) ∧
    (∀ (runs : List ReplanRun) (stock : Ledger) (runId lineId : String) (now : Int),
       (∀ p ∈ stock, 0 ≤ p.2.qty) →
       ∀ p ∈ (replanExecute runs stock runId lineId now).stock, 0 ≤ p.2.qty) ∧
    (∀ (batch : NCBatch) (stock : Ledger) (lineId : String) (now : Int),
       (∀ p ∈ stock, 0 ≤ p.2.qty) →
       ∀ p ∈ (ncExecute batch stock lineId now).stock, 0 ≤ p.2.qty) ∧
    (∀ (stock : Ledger) (lines : List ReplanLine) (now : Int),
       (∀ p ∈ stock, 0 ≤ p.2.qty) →
       ∀ p ∈ (replanExecuteAll stock lines now).1, 0 ≤ p.2.qty) ∧
    (∀ (stock : Ledger) (items : List NCLine) (now : Int),
       (∀ p ∈ stock, 0 ≤ p.2.qty) →
       ∀ p ∈ (ncExecuteAll stock items now).1, 0 ≤ p.2.qty) ∧
    (∀ (stock : Ledger) (line : ReplanLine) (now : Int) (st : StockItem),
       line.status = .Pending → stock.lookup line.lineId = some st →
       0 < line.pullQty → line.pullQty ≤ st.qty →
       (execAllStep stock line now).2 =
         { line with status := .Done, executedAt := some now } ∧
       ((execAllStep stock line now).1.lookup line.lineId).map StockItem.qty =
         some (st.qty - line.pullQty)) := by
  refine ⟨?_, ?_, ?_, ?_, ?_, ?_⟩
  · intro oldItems rows now hrows
    have hfst : (stockUpdate oldItems rows now).1 = buildItems (parseRows rows) := by
      unfold stockUpdate
      split <;> rfl
    rw [hfst]
    exact buildItems_nonneg (parseRows_nonneg hrows)
  · intro runs stock runId lineId now hstock
    exact replanExecute_stock_nonneg hstock
  · intro batch stock lineId now hstock
    exact ncExecute_stock_nonneg hstock
  · intro stock lines now hstock
    exact replanExecuteAll_stock_nonneg hstock
  · intro stock items now hstock
    exact ncExecuteAll_stock_nonneg hstock
  · intro stock line now st hpend hlk hpos hle
    exact execAllStep_decrement hpend hlk hpos hle

/-- Witness for C4 (amended) at concrete inputs. -/
theorem qty_nonneg_preservation_witness :
    (∀ p ∈ (stockUpdate [] [(("[1] A (M, Red)"), 5)] 0).1, 0 ≤ p.2.qty) ∧
    (∀ p ∈ (replanExecute
        [⟨"R1", 0, "All", "s",
          [⟨"1||M||Red", "A", "1", "M", "Red", 10, 2, 8, 3, .Pending, none⟩]⟩]
        [("1||M||Red", ⟨"1", "M", "Red", "A", 7⟩)] ("R1") ("1||M||Red") 9).stock,
       0 ≤ p.2.qty) :=
  ⟨(qty_nonneg_preservation.1 [] [(("[1] A (M, Red)"), 5)] 0 (by decide)),
   (qty_nonneg_preservation.2.1
      [⟨"R1", 0, "All", "s",
        [⟨"1||M||Red", "A", "1", "M", "Red", 10, 2, 8, 3, .Pending, none⟩]⟩]
      [("1||M||Red", ⟨"1", "M", "Red", "A", 7⟩)] ("R1") ("1||M||Red") 9
      (by decide))⟩

/-! ### Order lemmas for the generate sort -/

theorem lexLE_total : ∀ a b : Str, lexLE a b = true ∨ lexLE b a = true := by
  intro a
  induction a with
  | nil => intro b; left; rfl
  | cons x xs ih =>
    intro b
    cases b with
    | nil => right; rfl
    | cons y ys =>
      unfold lexLE
      rcases lt_trichotomy x y with h | h | h
      · left
        rw [if_pos h]
      · subst h
        simp only [if_neg (lt_irrefl x)]
        exact ih ys
      · right
        rw [if_pos h]

theorem lexLE_trans : ∀ a b c : Str,
    lexLE a b = true → lexLE b c = true → lexLE a c = true := by
  intro a
  induction a with
  | nil => intro b c _ _; rfl
  | cons x xs ih =>
    intro b c hab hbc
    cases b with
    | nil =>
      rw [show lexLE (x :: xs) [] = false from rfl] at hab
      cases hab
    | cons y ys =>
      cases c with
      | nil =>
        rw [show lexLE (y :: ys) [] = false from rfl] at hbc
        cases hbc
      | cons z zs =>
        unfold lexLE at hab hbc ⊢
        rcases lt_trichotomy x y with h1 | h1 | h1
        · rcases lt_trichotomy y z with h2 | h2 | h2
          · rw [if_pos (lt_trans h1 h2)]
          · subst h2
            rw [if_pos h1]
          · rw [if_neg (lt_asymm h2), if_pos h2] at hbc
            cases hbc
        · subst h1
          rw [if_neg (lt_irrefl x), if_neg (lt_irrefl x)] at hab
          rcases lt_trichotomy x z with h2 | h2 | h2
          · rw [if_pos h2]
          · subst h2
            rw [if_neg (lt_irrefl x), if_neg (lt_irrefl x)] at hbc ⊢
            exact ih ys zs hab hbc
          · rw [if_neg (lt_asymm h2), if_pos h2] at hbc
            cases hbc
        · rw [if_neg (lt_asymm h1), if_pos h1] at hab
          cases hab

theorem lineLE_iff (a b : ReplanLine) :
    lineLE a b = true ↔
      (b.balance < a.balance ∨
        (a.balance = b.balance ∧ lexLE a.sku.toList b.sku.toList = true)) := by
  unfold lineLE
  rw [Bool.or_eq_true, Bool.and_eq_true, decide_eq_true_iff, beq_iff_eq]

theorem lineLE_trans : ∀ a b c : ReplanLine,
    lineLE a b = true → lineLE b c = true → lineLE a c = true := by
  intro a b c hab hbc
  rw [lineLE_iff] at hab hbc ⊢
  rcases hab with h1 | ⟨h1, hs1⟩
  · rcases hbc with h2 | ⟨h2, hs2⟩
    · left; omega
    · left; omega
  · rcases hbc with h2 | ⟨h2, hs2⟩
    · left; omega
    · right
      exact ⟨by omega, lexLE_trans _ _ _ hs1 hs2⟩

theorem lineLE_total : ∀ a b : ReplanLine, (lineLE a b || lineLE b a) = true := by
  intro a b
  rw [Bool.or_eq_true, lineLE_iff, lineLE_iff]
  rcases lt_trichotomy a.balance b.balance with h | h | h
  · right; left; exact h
  · rcases lexLE_total a.sku.toList b.sku.toList with hs | hs
    · left; right; exact ⟨h, hs⟩
    · right; right; exact ⟨h.symm, hs⟩
  · left; left; exact h

/-! ### C1: characterization of a generated run -/

unseal List.merge List.mergeSort in
/-- C1 counterexample to the claim as stated: an aggregated sales key with
summed quantity 0 that is present in the ledger, passes the (empty)
category filter, and has balance 5 > 0 and pull quantity 1 > 0 under the
resolved limits, yet the generated run contains no line at all. -/
theorem generate_zero_sales_counterexample :
    generateLines [⟨"", "1", "", "", 0⟩] [("1||||", ⟨"1", "", "", "", 5⟩)] ""
        ⟨1, 1, []⟩ = [] ∧
    (buildSalesMap [⟨"", "1", "", "", 0⟩]).lookup ("1||||") = some 0 ∧
    ([("1||||", ⟨"1", "", "", "", 5⟩)] : Ledger).lookup ("1||||") =
      some ⟨"1", "", "", "", 5⟩ ∧
    (0 : Int) < 5 - 0 ∧
    0 < clampPull (5 - 0) (getSkuLimits ⟨1, 1, []⟩ ("1")).min
        (getSkuLimits ⟨1, 1, []⟩ ("1")).max := by
  refine ⟨by decide, by decide, by decide, by decide, by decide⟩

/-- C1 (amended): for a non-empty ledger, generate succeeds and the run's
lines are exactly one line per aggregated sales key that has positive
summed sales quantity, is present in the ledger, passes the category
filter when one is set, has balance = stockQty − salesQty > 0 and
pullQty = clamp(balance, min, max) > 0 under the SKU's resolved limits;
lines record those values and are sorted by descending balance with ties
broken by ascending SKU in lexicographic string order. -/
theorem generate_run_characterization :
    ∀ (salesParsed : List AggRow) (stockItems : Ledger) (categoryFilter : String)
      (cfg : LimitsConfig) (runId : String) (now : Int) (fileName : String),
      (stockItems ≠ [] →
         generateRun salesParsed stockItems categoryFilter cfg runId now fileName =
           some ⟨runId, now, if categoryFilter = "" then "All" else categoryFilter,
                 fileName, generateLines salesParsed stockItems categoryFilter cfg⟩) ∧
      (∀ (k : String) (q : Int) (st : StockItem),
         (buildSalesMap salesParsed).lookup k = some q → 0 < q →
         stockItems.lookup k = some st →
         (categoryFilter = "" ∨ st.category = categoryFilter) →
         0 < st.qty - q →
         0 < clampPull (st.qty - q) (getSkuLimits cfg st.sku).min
             (getSkuLimits cfg st.sku).max →
         ∃ l ∈ generateLines salesParsed stockItems categoryFilter cfg,
           l.lineId = k) ∧
      (∀ l ∈ generateLines salesParsed stockItems categoryFilter cfg,
         ∃ st, stockItems.lookup l.lineId = some st ∧
           (buildSalesMap salesParsed).lookup l.lineId = some l.salesQty ∧
           0 < l.salesQty ∧
           (categoryFilter = "" ∨ st.category = categoryFilter) ∧
           l.category = st.category ∧ l.sku = st.sku ∧ l.size = st.size ∧
           l.color = st.color ∧ l.stockQty = st.qty ∧
           l.balance = st.qty - l.salesQty ∧ 0 < l.balance ∧
           l.pullQty = clampPull l.balance (getSkuLimits cfg l.sku).min
             (getSkuLimits cfg l.sku).max ∧ 0 < l.pullQty ∧
           l.status = .Pending ∧ l.executedAt = none) ∧
      ((generateLines salesParsed stockItems categoryFilter cfg).map
          ReplanLine.lineId).Nodup ∧
      (generateLines salesParsed stockItems categoryFilter cfg).Pairwise
        (fun a b => b.balance < a.balance ∨
          (a.balance = b.balance ∧ lexLE a.sku.toList b.sku.toList = true)) := by
  intro salesParsed stockItems categoryFilter cfg runId now fileName
  refine ⟨?_, ?_, ?_, ?_, ?_⟩
  · intro hne
    have hie : stockItems.isEmpty = false := by
      cases stockItems with
      | nil => exact absurd rfl hne
      | cons a l => rfl
    unfold generateRun
    rw [if_neg (by rw [hie]; intro hc; cases hc)]
  · intro k q st hlk hq hst hcat hbal hpull
    have hmem : (k, q) ∈ buildSalesMap salesParsed := mem_of_lookup_eq_some hlk
    have hcand : replanCandidate stockItems categoryFilter cfg k q =
        some ⟨k, st.category, st.sku, st.size, st.color, st.qty, q, st.qty - q,
              clampPull (st.qty - q) (getSkuLimits cfg st.sku).min
                (getSkuLimits cfg st.sku).max, .Pending, none⟩ :=
      replanCandidate_eq_some.mpr ⟨st, hst, hq, hcat, hbal, hpull, rfl⟩
    exact ⟨_, mem_generateLines.mpr ⟨(k, q), hmem, hcand⟩, rfl⟩
  · intro l hl
    obtain ⟨p, hp, he⟩ := mem_generateLines.mp hl
    obtain ⟨st, hlk, hq, hcat, hbal, hpull, rfl⟩ := replanCandidate_eq_some.mp he
    refine ⟨st, hlk, ?_, hq, hcat, rfl, rfl, rfl, rfl, rfl, rfl, hbal, rfl, hpull,
      rfl, rfl⟩
    exact lookup_eq_some_of_mem_nodup (buildSalesMap_keys_nodup _) (by exact hp)
  · have h1 : (((buildSalesMap salesParsed).filterMap
        (fun p => replanCandidate stockItems categoryFilter cfg p.1 p.2)).map
          ReplanLine.lineId).Nodup := by
      apply nodup_filterMap_keys _ _ _ (buildSalesMap_keys_nodup _)
      intro p c hc
      obtain ⟨st, _, _, _, _, _, rfl⟩ := replanCandidate_eq_some.mp hc
      rfl
    have hperm := List.mergeSort_perm
      ((buildSalesMap salesParsed).filterMap
        (fun p => replanCandidate stockItems categoryFilter cfg p.1 p.2)) lineLE
    exact ((hperm.map ReplanLine.lineId).nodup_iff).mpr h1
  · have hs := List.sorted_mergeSort
      (fun a b c => lineLE_trans a b c) (fun a b => lineLE_total a b)
      ((buildSalesMap salesParsed).filterMap
        (fun p => replanCandidate stockItems categoryFilter cfg p.1 p.2))
    exact hs.imp (fun h => (lineLE_iff _ _).mp h)

/-- Witness for C1 (amended) at the spec scenario (ledger qty 10, sales 4,
limits (1, 3)). -/
theorem generate_run_characterization_witness :
    ∃ l ∈ generateLines [⟨"", "1", "", "", 4⟩] [("1||||", ⟨"1", "", "", "", 10⟩)]
        "" ⟨1, 3, []⟩, l.lineId = "1||||" :=
  (generate_run_characterization [⟨"", "1", "", "", 4⟩]
      [("1||||", ⟨"1", "", "", "", 10⟩)] "" ⟨1, 3, []⟩ ("R") 0 ("f")).2.1
    ("1||||") 4 ⟨"1", "", "", "", 10⟩ (by decide) (by decide) (by decide)
    (Or.inl rfl) (by decide) (by decide)

/-! ### C6: the dashboard noReplan list -/

theorem noRepLE_trans : ∀ a b c : NoReplanEntry,
    noRepLE a b = true → noRepLE b c = true → noRepLE a c = true := by
  intro a b c h1 h2
  unfold noRepLE at h1 h2 ⊢
  exact decide_eq_true (le_trans (of_decide_eq_true h1) (of_decide_eq_true h2))

theorem noRepLE_total : ∀ a b : NoReplanEntry, (noRepLE a b || noRepLE b a) = true := by
  intro a b
  unfold noRepLE
  rcases le_total (a.lastExecutedAt.getD 0) (b.lastExecutedAt.getD 0) with h | h
  · rw [Bool.or_eq_true]
    left
    exact decide_eq_true h
  · rw [Bool.or_eq_true]
    right
    exact decide_eq_true h

unseal List.merge List.mergeSort in
/-- C6 counterexample to the claim as stated: the run history's only line
is Done for (sku, size, color) = (1, M, Red) at time 50, which is not
older than now − staleDays, so by the claim (which keys staleness by
(sku, size, color) alone) the in-stock item with the same (sku, size,
color) must not appear — but the code keys by category||sku||size||color,
the item's category B differs from the line's category A, and the item is
reported as never executed. -/
theorem no_replan_stale_key_counterexample :
    noReplanList
        [⟨"R1", 0, "All", "s",
          [⟨"1||M||Red", "A", "1", "M", "Red", 10, 2, 8, 3, .Done, some 50⟩]⟩]
        [("1||M||Red", ⟨"1", "M", "Red", "B", 5⟩)] 100 1 "" =
      [⟨"B", "1", "M", "Red", 5, none⟩] ∧
    ¬((50 : Int) < 100 - 1 * 86400000) := by
  refine ⟨by decide, by decide⟩

/-- C6 (amended): the dashboard's noReplan list contains exactly those
ledger items with qty > 0 (matching the category filter when set) whose
most recent Done execution timestamp — taken per
(category, sku, size, color) key across all runs in history — is absent or
older than now − staleDays; it is sorted ascending by that timestamp with
never-executed items first and truncated to 200 entries (the completeness
direction stated for ledgers of at most 200 items, where the cap cannot
drop entries). -/
theorem no_replan_characterization :
    ∀ (runs : List ReplanRun) (stockItems : Ledger) (nowMs staleDays : Int)
      (category : String),
      (∀ e ∈ noReplanList runs stockItems nowMs staleDays category,
         ∃ p ∈ stockItems, 0 < p.2.qty ∧
           (category = "" ∨ p.2.category = category) ∧
           (lastKeyOf runs category p.2 = 0 ∨
            lastKeyOf runs category p.2 < nowMs - staleDays * 86400000) ∧
           e = ⟨p.2.category, p.2.sku, p.2.size, p.2.color, p.2.qty,
                if lastKeyOf runs category p.2 = 0 then none
                else some (lastKeyOf runs category p.2)⟩) ∧
      (noReplanList runs stockItems nowMs staleDays category).Pairwise
        (fun a b => a.lastExecutedAt.getD 0 ≤ b.lastExecutedAt.getD 0) ∧
      (noReplanList runs stockItems nowMs staleDays category).length ≤ 200 ∧
      (stockItems.length ≤ 200 →
       ∀ (k : String) (st : StockItem), stockItems.lookup k = some st →
         0 < st.qty → (category = "" ∨ st.category = category) →
         (lastKeyOf runs category st = 0 ∨
          lastKeyOf runs category st < nowMs - staleDays * 86400000) →
         (⟨st.category, st.sku, st.size, st.color, st.qty,
           if lastKeyOf runs category st = 0 then none
           else some (lastKeyOf runs category st)⟩ : NoReplanEntry) ∈
           noReplanList runs stockItems nowMs staleDays category) := by
  intro runs stockItems nowMs staleDays category
  refine ⟨?_, ?_, ?_, ?_⟩
  · intro e he
    have he2 : e ∈ (noReplanBase runs stockItems nowMs staleDays category).mergeSort
        noRepLE := List.take_subset _ _ he
    rw [List.mem_mergeSort] at he2
    obtain ⟨p, hp, hfp⟩ := List.mem_filterMap.mp he2
    by_cases h1 : p.2.qty ≤ 0
    · rw [if_pos h1] at hfp
      cases hfp
    · rw [if_neg h1] at hfp
      by_cases h2 : category ≠ "" ∧ p.2.category ≠ category
      · rw [if_pos h2] at hfp
        cases hfp
      · rw [if_neg h2] at hfp
        by_cases h3 : lastKeyOf runs category p.2 = 0 ∨
            lastKeyOf runs category p.2 < nowMs - staleDays * 86400000
        · rw [if_pos h3] at hfp
          injection hfp with hfp2
          refine ⟨p, hp, by omega, ?_, h3, hfp2.symm⟩
          by_cases hc1 : category = ""
          · exact Or.inl hc1
          · right
            by_contra hc2
            exact h2 ⟨hc1, hc2⟩
        · rw [if_neg h3] at hfp
          cases hfp
  · apply List.Pairwise.sublist (List.take_sublist _ _)
    have hs := List.sorted_mergeSort
      (fun a b c => noRepLE_trans a b c) (fun a b => noRepLE_total a b)
      (noReplanBase runs stockItems nowMs staleDays category)
    exact hs.imp (fun h => of_decide_eq_true h)
  · exact List.length_take_le _ _
  · intro hlen k st hlk hq hcat hcond
    have hmem : (k, st) ∈ stockItems := mem_of_lookup_eq_some hlk
    have hbase : (⟨st.category, st.sku, st.size, st.color, st.qty,
        if lastKeyOf runs category st = 0 then none
        else some (lastKeyOf runs category st)⟩ : NoReplanEntry) ∈
        noReplanBase runs stockItems nowMs staleDays category := by
      apply List.mem_filterMap.mpr
      refine ⟨(k, st), hmem, ?_⟩
      rw [if_neg (by
        show ¬(st.qty ≤ 0)
        omega)]
      rw [if_neg (by
        rintro ⟨hc1, hc2⟩
        rcases hcat with hc | hc
        · exact hc1 hc
        · exact hc2 hc)]
      rw [if_pos hcond]
    have hlenb : (noReplanBase runs stockItems nowMs staleDays category).length ≤ 200 :=
      le_trans (List.length_filterMap_le _ _) hlen
    have hlenm : ((noReplanBase runs stockItems nowMs staleDays
        category).mergeSort noRepLE).length ≤ 200 := by
      rw [List.length_mergeSort]
      exact hlenb
    unfold noReplanList
    rw [List.take_of_length_le hlenm, List.mem_mergeSort]
    exact hbase

/-- Witness for C6 (amended): a never-executed in-stock item appears in
the noReplan list. -/
theorem no_replan_characterization_witness :
    (⟨"A", "1", "", "", 5,
      if lastKeyOf [] "" ⟨"1", "", "", "A", 5⟩ = 0 then none
      else some (lastKeyOf [] "" ⟨"1", "", "", "A", 5⟩)⟩ : NoReplanEntry) ∈
      noReplanList [] [("1||||", ⟨"1", "", "", "A", 5⟩)] 100 1 "" :=
  (no_replan_characterization [] [("1||||", ⟨"1", "", "", "A", 5⟩)] 100 1 "").2.2.2
    (by decide) ("1||||") ⟨"1", "", "", "A", 5⟩ (by decide) (by decide)
    (Or.inl rfl) (Or.inl (by decide))

end Replan
